import Mathlib

/-!
Verification of the `@gramio/composer` middleware composition library.

The development shallowly embeds the runtime behaviour of the library:

* `Val` / `Ctx` — JS values and the mutable context object (an insertion
  ordered string-keyed record, as JS objects are).
* `Fn` / `execFns` — the middleware entries the registration operations build
  (src/composer.ts) and their sequential onion execution, producing the final
  context, the log of executed opaque steps and whether the terminal
  continuation was invoked.
* `Composer` — the registry (src/composer.ts): ordered middleware entries,
  error handlers, error-kind classifiers, macro definitions, dedup keys,
  identity and the dirty-flag compiled cache.  The identity of a compiled
  closure is modelled by a caller-supplied fresh token.
* `compose` (namespace `Onion`) — the standalone compose() of src/compose.ts
  including the per-invocation lastIndex double-continuation check.
* `runErrorHandlers` / `Composer.boundaryRun` — the error boundary installed
  by Composer.compose() (src/composer.ts lines 548-566).
* `buildFromOptions` — the macro pipeline of src/macros.ts.
* `EventQueue` — the concurrent event queue of src/queue.ts as a state
  machine with instrumented started-event and idle-notification counters.
-/

namespace GramioComposer

/-- JS runtime values as far as the claims need them (null, undefined,
booleans, numbers, strings).  Object-valued seeds are serialized structurally
by the code; the claims are settled on scalar seeds. -/
inductive Val where
  | vnull
  | vundef
  | vbool (b : Bool)
  | vnum (n : Int)
  | vstr (s : String)
deriving DecidableEq

/-- A context object: insertion-ordered association list of own enumerable
string-keyed properties, the shape JS objects expose to Object.keys,
Object.assign and the delete operator.  All properties are modelled as
configurable data properties (plain objects), matching the removability
hypothesis of the isolation claims. -/
def Ctx := List (String × Val)

instance : DecidableEq Ctx := by unfold Ctx; infer_instance

/-- Property read `obj[k]`: first (unique, for genuine objects) match. -/
def recordGet {α : Type} : List (String × α) → String → Option α
  | [], _ => none
  | (k', v') :: rest, k => if k' = k then some v' else recordGet rest k

/-- Property write `obj[k] = v`: overwrite the existing slot in place,
otherwise append (JS insertion order semantics). -/
def recordSet {α : Type} : List (String × α) → String → α → List (String × α)
  | [], k, v => [(k, v)]
  | (k', v') :: rest, k, v =>
      if k' = k then (k, v) :: rest else (k', v') :: recordSet rest k v

/-- `Object.assign(target, source)`: copy the source entries onto the target
in source insertion order. -/
def recordAssign {α : Type} (target source : List (String × α)) : List (String × α) :=
  source.foldl (fun acc kv => recordSet acc kv.1 kv.2) target

/-- `Object.keys(obj)`. -/
def recordKeys {α : Type} (l : List (String × α)) : List String := l.map Prod.fst

def ctxGet (c : Ctx) (k : String) : Option Val := recordGet c k

def jsAssign (target source : Ctx) : Ctx := recordAssign target source

def ctxKeys (c : Ctx) : List String := recordKeys c

/-- The snapshot-isolation cleanup translated from the wrapper bodies in
src/composer.ts (group(), lines 411-424, and the extend() local wrapper,
lines 470-483): `pre` is the context as snapshotted before the nested chain
ran, `post` the same context object after the nested chain settled.  The
wrapper deletes every (configurable) key absent from the snapshot and then
Object.assigns the snapshotted values back over the survivors. -/
def isolatedRestore (pre post : Ctx) : Ctx :=
  jsAssign (post.filter (fun kv => (ctxKeys pre).contains kv.1)) pre

/-- Deep syntax of the middleware functions that the registration operations
of src/composer.ts store in registry entries.

* `prim id` — an opaque user middleware that records its execution under `id`
  and invokes its continuation exactly once (the shape of every plain handler
  in the dedup and scope scenarios).
* `eff f` — the step bodies built by derive()/decorate(): transform the
  context, then continue.
* `gate p` — guard() gate mode (lines 176-178): continue iff the predicate
  holds, otherwise return without invoking the continuation.
* `guardSide p sub` — guard() side-effect mode (lines 183-188): when the
  predicate holds run `sub` with a no-op terminal, then always continue.
* `tapped sub` — tap() (lines 326-329): run `sub` with a no-op terminal,
  then always continue.
* `isolated sub` — the snapshot-isolation wrapper built by group() and by
  the local-scope path of extend(): run `sub` with a no-op terminal, restore
  the context, then always continue.
* `branched p t e` — the runtime middleware built by branch() for a
  non-literal predicate (lines 215-220): dispatch to `t` or `e` with the
  parent continuation.
* `macroDerive d` — the derive step built by buildFromOptions (src/macros.ts
  lines 60-65): stop the chain when the derive yields no value, otherwise
  merge the result into the context and continue.
* `comp sub` — a composed chain used as a single middleware (the result of
  the standalone compose() when used as a step).
* `dynF tag` — the remaining runtime bodies (fork(), lazy(), route()):
  no claim observes their execution, only the registration effect of the
  operations that create them; the interpreter treats them as pass-through. -/
inductive Fn where
  | prim (id : Nat)
  | eff (f : Ctx → Ctx)
  | gate (p : Ctx → Bool)
  | guardSide (p : Ctx → Bool) (sub : List Fn)
  | tapped (sub : List Fn)
  | isolated (sub : List Fn)
  | branched (p : Ctx → Bool) (onTrue : Fn) (onFalse : Option Fn)
  | macroDerive (d : Ctx → Option Ctx)
  | comp (sub : List Fn)
  | dynF (tag : String)

/-- Result of one sequential execution of a chain of entries: the final
context, the ordered log of executed `prim` ids, and how many times the
terminal continuation was invoked (0 or 1 — the onion executor never invokes
a continuation it was given more than once without failing, and the
short-circuit steps invoke it zero times). -/
structure ExecOut where
  ctx : Ctx
  log : List Nat
  term : Nat
deriving DecidableEq

/-- Sequential onion execution of a list of middleware entries against a
context, with the continuation-passing flattened: the continuation of the
head entry is the execution of the tail, and falling off the end of the list
invokes the terminal continuation once.  Entries that run a nested chain
(`guardSide`, `tapped`, `isolated`) give it a no-op terminal, so its own
terminal count is discarded, and then continue unconditionally — for
`isolated` after the snapshot restore, exactly as the wrappers in
src/composer.ts do. -/
def execFns : List Fn → Ctx → ExecOut
  | [], ctx => ⟨ctx, [], 1⟩
  | .prim id :: rest, ctx =>
      let o := execFns rest ctx
      ⟨o.ctx, id :: o.log, o.term⟩
  | .eff f :: rest, ctx => execFns rest (f ctx)
  | .gate p :: rest, ctx =>
      if p ctx then execFns rest ctx else ⟨ctx, [], 0⟩
  | .guardSide p sub :: rest, ctx =>
      if p ctx then
        let o1 := execFns sub ctx
        let o2 := execFns rest o1.ctx
        ⟨o2.ctx, o1.log ++ o2.log, o2.term⟩
      else execFns rest ctx
  | .tapped sub :: rest, ctx =>
      let o1 := execFns sub ctx
      let o2 := execFns rest o1.ctx
      ⟨o2.ctx, o1.log ++ o2.log, o2.term⟩
  | .isolated sub :: rest, ctx =>
      let o1 := execFns sub ctx
      let o2 := execFns rest (isolatedRestore ctx o1.ctx)
      ⟨o2.ctx, o1.log ++ o2.log, o2.term⟩
  | .branched p t e :: rest, ctx =>
      if p ctx then execFns (t :: rest) ctx
      else
        match e with
        | some f => execFns (f :: rest) ctx
        | none => execFns rest ctx
  | .macroDerive d :: rest, ctx =>
      match d ctx with
      | none => ⟨ctx, [], 0⟩
      | some patch => execFns rest (jsAssign ctx patch)
  | .comp sub :: rest, ctx => execFns (sub ++ rest) ctx
  | .dynF _ :: rest, ctx => execFns rest ctx
termination_by l _ => sizeOf l
decreasing_by
  all_goals simp_wf
  all_goals try omega
  all_goals
    (have happ : ∀ (l1 l2 : List Fn), sizeOf (l1 ++ l2) + 1 = sizeOf l1 + sizeOf l2 := by
      intro l1 l2
      induction l1 with
      | nil => simp only [List.nil_append, List.nil.sizeOf_spec]; omega
      | cons f r ih => simp only [List.cons_append, List.cons.sizeOf_spec]; omega
     have := happ sub rest
     omega)

/-- The payload the error boundary passes to each registered handler:
`(error, context, kind)` (src/composer.ts line 561). -/
structure ErrorCtx where
  error : Val
  context : Ctx
  kind : Option String

/-- An error-kind classifier registered by error(): the runtime
`error instanceof ErrorClass` test modelled as a predicate on the thrown
value. -/
def ErrClass := Val → Bool

/-- A registered error handler.  `Except.error` models a handler that itself
throws (the only error-path way the compiled chain rejects); `Except.ok
Val.vundef` models a handler that produces no value. -/
def ErrHandler := ErrorCtx → Except Val Val

/-- One-or-many middleware, the shape accepted for preHandler slots in the
macro system (src/types.ts MaybeArray). -/
inductive MaybeArr where
  | one (f : Fn)
  | many (fs : List Fn)

/-- The hooks a macro resolves to: optional preHandler middleware and an
optional derive returning an enrichment patch or no value. -/
structure MacroHooks where
  preHandler : Option MaybeArr
  derive : Option (Ctx → Option Ctx)

/-- A value in a handler-options record: a plain JS value, or middleware
(as used for the preHandler key). -/
inductive OptVal where
  | pval (v : Val)
  | pone (f : Fn)
  | pmany (fs : List Fn)

/-- A registered macro definition: parameterized (a function from the option
value to hooks; invoked with undefined when the option value is `true`) or
static (a plain hooks record). -/
inductive MacroDef where
  | fnDef (f : Option OptVal → MacroHooks)
  | objDef (h : MacroHooks)

/-- Middleware visibility scope.  The source literals "local" / "scoped" /
"global" are Lean keywords, hence the constructor prefixes. -/
inductive Scope where
  | sLocal
  | sScoped
  | sGlobal
deriving DecidableEq

/-- A registry entry (src/types.ts ScopedMiddleware): the stored handler,
its scope, the kind tag of the operation that created it, an optional
display name and an optional origin-plugin name. -/
structure ScopedMiddleware where
  fn : Fn
  scope : Scope
  type : String
  name : Option String
  plugin : Option String

/-- The middleware registry (the `"~"` internal state of the Composer class,
src/composer.ts lines 57-77).  The compiled cache stores the identity token
of the most recently built closure, or none when dirty.  The tracer hook is
not modelled (no claim concerns trace()). -/
structure Composer where
  middlewares : List ScopedMiddleware
  onErrors : List ErrHandler
  extended : List String
  compiled : Option Nat
  name : Option String
  seed : Option Val
  errorsDefinitions : List (String × ErrClass)
  macros : List (String × MacroDef)

/-- JS Set add: insertion ordered, no duplicates. -/
def addKey (l : List String) (k : String) : List String :=
  if l.contains k then l else l ++ [k]

/-- JSON.stringify for the scalar seed values the claims use (string
escaping not modelled; object seeds serialize structurally and are outside
the scenarios settled here). -/
def jsonStringify : Val → String
  | .vnull => "null"
  | .vundef => "undefined"
  | .vbool true => "true"
  | .vbool false => "false"
  | .vnum n => toString n
  | .vstr s => "\"" ++ s ++ "\""

/-- The serialized-seed part of a dedup key: `JSON.stringify(seed ?? null)`,
so an absent or undefined seed serializes as null (src/composer.ts line
436). -/
def seedKeyPart (seed : Option Val) : String :=
  jsonStringify (match seed with
    | none => .vnull
    | some .vundef => .vnull
    | some v => v)

/-- The dedup key of a named registry: name + ":" + serialized seed. -/
def dedupKeyOf (nm : String) (seed : Option Val) : String :=
  nm ++ ":" ++ seedKeyPart seed

/-- key.startsWith(prefix), modelled on the character lists of the strings
(the builtin byte-position String.startsWith does not reduce inside
proofs). -/
def strStartsWith (s pre : String) : Bool :=
  List.isPrefixOf pre.data s.data

namespace Composer

/-- new Composer(options?): empty registry with the given identity. -/
def create (nm : Option String) (seed : Option Val) : Composer :=
  ⟨[], [], [], none, nm, seed, [], []⟩

/-- new Composer() with no identity. -/
def empty : Composer := create none none

/-- invalidate(): drop the compiled cache (lines 79-81). -/
def invalidate (c : Composer) : Composer := { c with compiled := none }

/-- use(...middleware): append raw steps as local "use" entries and
invalidate (lines 136-142).  Handler display names are not modelled. -/
def use (c : Composer) (middleware : List Fn) : Composer :=
  invalidate { c with
    middlewares := c.middlewares ++
      middleware.map (fun f => ⟨f, .sLocal, "use", none, none⟩) }

/-- derive(handler, options?): append a step that awaits the handler and
Object.assigns the returned patch onto the context (lines 151-165). -/
def derive (c : Composer) (handler : Ctx → Ctx) (asScope : Option Scope) : Composer :=
  invalidate { c with
    middlewares := c.middlewares ++
      [⟨.eff (fun ctx => jsAssign ctx (handler ctx)), asScope.getD .sLocal,
        "derive", none, none⟩] }

/-- decorate(values, options?): append a step that Object.assigns a static
record onto the context (lines 110-130). -/
def decorate (c : Composer) (values : Ctx) (asScope : Option Scope) : Composer :=
  invalidate { c with
    middlewares := c.middlewares ++
      [⟨.eff (fun ctx => jsAssign ctx values), asScope.getD .sLocal,
        "decorate", none, none⟩] }

/-- guard(predicate, ...middleware): gate mode when no extra steps are
supplied, side-effect mode otherwise (lines 168-195). -/
def guard (c : Composer) (predicate : Ctx → Bool) (middleware : List Fn) : Composer :=
  invalidate { c with
    middlewares := c.middlewares ++
      [if middleware.isEmpty then ⟨.gate predicate, .sLocal, "guard", none, none⟩
       else ⟨.guardSide predicate middleware, .sLocal, "guard", none, none⟩] }

/-- The predicate argument of branch(): a literal boolean is resolved at
registration time, a function at run time (lines 197-225). -/
inductive BranchPred where
  | lit (b : Bool)
  | dyn (p : Ctx → Bool)

/-- branch(predicate, onTrue, onFalse?): static booleans append only the
chosen branch (possibly nothing); a runtime predicate appends one
dispatching step; the cache is invalidated in every case (lines 197-225). -/
def branch (c : Composer) (predicate : BranchPred) (onTrue : Fn)
    (onFalse : Option Fn) : Composer :=
  match predicate with
  | .lit true =>
      invalidate { c with
        middlewares := c.middlewares ++ [⟨onTrue, .sLocal, "branch", none, none⟩] }
  | .lit false =>
      match onFalse with
      | some f =>
          invalidate { c with
            middlewares := c.middlewares ++ [⟨f, .sLocal, "branch", none, none⟩] }
      | none => invalidate c
  | .dyn p =>
      invalidate { c with
        middlewares := c.middlewares ++
          [⟨.branched p onTrue onFalse, .sLocal, "branch", none, none⟩] }

/-- route(router, cases, fallback?): the registration effect — one local
"route" entry plus invalidation (lines 238-297).  The dispatch body is not
observed by any claim and is kept as an uninterpreted entry. -/
def route (c : Composer) : Composer :=
  invalidate { c with
    middlewares := c.middlewares ++ [⟨.dynF "route", .sLocal, "route", none, none⟩] }

/-- fork(...middleware): one local "fork" entry plus invalidation (lines
299-320).  The detached concurrent body is not modelled. -/
def fork (c : Composer) : Composer :=
  invalidate { c with
    middlewares := c.middlewares ++ [⟨.dynF "fork", .sLocal, "fork", none, none⟩] }

/-- tap(...middleware): append a step that runs the given steps with a no-op
terminal and then always continues (lines 322-334). -/
def tap (c : Composer) (middleware : List Fn) : Composer :=
  invalidate { c with
    middlewares := c.middlewares ++ [⟨.tapped middleware, .sLocal, "tap", none, none⟩] }

/-- lazy(factory): one local "lazy" entry plus invalidation (lines 336-348).
The per-invocation factory body is not observed by any claim. -/
def lazy (c : Composer) : Composer :=
  invalidate { c with
    middlewares := c.middlewares ++ [⟨.dynF "lazy", .sLocal, "lazy", none, none⟩] }

/-- onError(handler): append to the error-handler list and invalidate
(lines 350-356). -/
def onError (c : Composer) (handler : ErrHandler) : Composer :=
  invalidate { c with onErrors := c.onErrors ++ [handler] }

/-- when(condition, fn): fn configures a throwaway nested registry `temp`;
when the condition holds its middlewares, error definitions, error handlers
and dedup keys are copied in; the cache is invalidated either way (lines
360-378).  Macros are not copied by when(). -/
def when (c : Composer) (condition : Bool) (temp : Composer) : Composer :=
  invalidate <|
    if condition then
      { c with
        middlewares := c.middlewares ++ temp.middlewares
        errorsDefinitions := recordAssign c.errorsDefinitions temp.errorsDefinitions
        onErrors := c.onErrors ++ temp.onErrors
        extended := temp.extended.foldl addKey c.extended }
    else c

/-- error(kind, errorClass): record the kind classifier (lines 382-388).
Unlike the other registration operations, error() contains NO invalidate
call; the compiled closure reads errorsDefinitions through a captured
reference. -/
def error (c : Composer) (kind : String) (errorClass : ErrClass) : Composer :=
  { c with errorsDefinitions := recordSet c.errorsDefinitions kind errorClass }

/-- macro(name, definition), single-name form: record the macro definition
(lines 96-106).  Like error(), macro() contains NO invalidate call.  Named
macroReg because `macro` is reserved in Lean. -/
def macroReg (c : Composer) (nm : String) (d : MacroDef) : Composer :=
  { c with macros := recordSet c.macros nm d }

/-- group(fn): fn configures a nested registry; its steps are compiled and
appended as a single snapshot-isolated local "group" entry (lines 404-429). -/
def group (c : Composer) (nested : Composer) : Composer :=
  invalidate { c with
    middlewares := c.middlewares ++
      [⟨.isolated (nested.middlewares.map ScopedMiddleware.fn), .sLocal,
        "group", none, none⟩] }

/-- extend(other), lines 431-500: (1) if other is named, a dedup-key hit
returns the target unchanged, otherwise the key is recorded; (2) the set of
keys known before inheriting is snapshotted; (3) the dedup keys of other are
inherited transitively; (4) error definitions, macros and error handlers are
merged; (5) the entries of other are partitioned by scope, excluding any
entry whose origin-plugin tag is covered by a key recorded before this
merge; the local group is wrapped in one snapshot-isolated entry tagged with
the identity of other, scoped entries are appended as local, global entries
as global, and the cache is invalidated. -/
def extend (t other : Composer) : Composer :=
  let proceed : Composer → Composer := fun t1 =>
    let alreadyExtended := t1.extended
    let t2 := { t1 with extended := other.extended.foldl addKey t1.extended }
    let t3 := { t2 with
      errorsDefinitions := recordAssign t2.errorsDefinitions other.errorsDefinitions
      macros := recordAssign t2.macros other.macros
      onErrors := t2.onErrors ++ other.onErrors }
    let pluginName := other.name
    let isNew : ScopedMiddleware → Bool := fun m =>
      match m.plugin with
      | none => true
      | some p => !(alreadyExtended.any (fun key => strStartsWith key (p ++ ":")))
    let localMws := other.middlewares.filter (fun m => m.scope == .sLocal && isNew m)
    let scopedMws := other.middlewares.filter (fun m => m.scope == .sScoped && isNew m)
    let globalMws := other.middlewares.filter (fun m => m.scope == .sGlobal && isNew m)
    let t4 :=
      if localMws.isEmpty then t3
      else { t3 with middlewares := t3.middlewares ++
        [⟨.isolated (localMws.map ScopedMiddleware.fn), .sLocal, "extend",
          pluginName, pluginName⟩] }
    let scopedAdd := scopedMws.map (fun m =>
      (⟨m.fn, .sLocal, m.type, m.name, m.plugin.orElse (fun _ => pluginName)⟩ :
        ScopedMiddleware))
    let globalAdd := globalMws.map (fun m =>
      (⟨m.fn, .sGlobal, m.type, m.name, m.plugin.orElse (fun _ => pluginName)⟩ :
        ScopedMiddleware))
    let t5 := { t4 with middlewares := t4.middlewares ++ scopedAdd }
    let t6 := { t5 with middlewares := t5.middlewares ++ globalAdd }
    invalidate t6
  match other.name with
  | some nm =>
      let key := dedupKeyOf nm other.seed
      if t.extended.contains key then t
      else proceed { t with extended := addKey t.extended key }
  | none => proceed t

/-- compose(): lazy, dirty-flag-cached compilation (lines 517-569).
Building the closure is modelled by the caller-supplied identity token
`fresh` (assumed not previously used): a real compilation stores and returns
it, a cache hit returns the stored token of the previously built closure
without recompiling. -/
def compose (c : Composer) (fresh : Nat) : Nat × Composer :=
  match c.compiled with
  | some id => (id, c)
  | none => (fresh, { c with compiled := some fresh })

/-- The error-free denotation of run() (lines 571-573): execute the
registered entries in order; the boundary is transparent when no error
escapes the chain. -/
def runExec (c : Composer) (ctx : Ctx) : ExecOut :=
  execFns (c.middlewares.map ScopedMiddleware.fn) ctx

/-- Resolve the kind of a thrown value: the first registered classifier that
matches wins (lines 553-559, a loop with break). -/
def resolveKind (defs : List (String × ErrClass)) (e : Val) : Option String :=
  match defs with
  | [] => none
  | (k, cls) :: rest => if cls e then some k else resolveKind rest e

/-- Observable outcome of the error boundary: the settled result of the
compiled chain, the number of error handlers invoked, and whether the
default diagnostic channel (console.error) was used. -/
structure BoundaryOut where
  result : Except Val Val
  handlersRun : Nat
  logged : Bool

/-- The handler iteration of the boundary (lines 560-563): invoke handlers
in registration order; the first result that is not undefined stops the
iteration and is returned; a handler that throws rethrows out of the
boundary; when every handler yields undefined the error is logged to
console.error and swallowed — the boundary returns undefined (lines
564-566). -/
def runErrorHandlers (info : ErrorCtx) : List ErrHandler → BoundaryOut
  | [] => ⟨.ok .vundef, 0, true⟩
  | h :: rest =>
    match h info with
    | .error e => ⟨.error e, 1, false⟩
    | .ok v =>
      if v = .vundef then
        let o := runErrorHandlers info rest
        ⟨o.result, o.handlersRun + 1, o.logged⟩
      else ⟨.ok v, 1, false⟩

/-- The failure boundary the compiled closure wraps around the onion chain
(lines 548-566): a successful chain result passes through untouched; a
thrown value is classified and handed to the error handlers together with
the context. -/
def boundaryRun (c : Composer) (ctx : Ctx) (chainResult : Except Val Val) : BoundaryOut :=
  match chainResult with
  | .ok v => ⟨.ok v, 0, false⟩
  | .error e => runErrorHandlers ⟨e, ctx, resolveKind c.errorsDefinitions e⟩ c.onErrors

end Composer

namespace Onion

/-- Shared state visible to middleware of the standalone compose() model:
the context object and an execution log used to observe behaviour. -/
structure CState where
  ctx : Ctx
  log : List String
deriving DecidableEq

/-- An action inside one invocation of a composed chain: it sees and updates
the per-invocation lastIndex cell of compose() (src/compose.ts line 14)
alongside the shared state, and either resolves with a value or rejects with
a thrown value.  Rejection does not roll back state changes. -/
def MAct := Int × CState → Except Val Val × (Int × CState)

/-- A middleware function: receives its continuation (the dispatch of the
next index, closing over the same lastIndex cell) and yields an action. -/
def MwS := MAct → MAct

/-- A terminal continuation — the optional next argument of the composed
chain: a plain thunk without access to the lastIndex cell. -/
def Term := CState → Except Val Val × CState

/-- The value thrown on a double continuation (src/compose.ts line 18). -/
def dblNextErr : Val := .vstr "next() called multiple times"

/-- dispatch(i) of src/compose.ts lines 16-32, with the remaining suffix of
the middleware list made explicit: reject when index i was already
dispatched (i less than or equal to lastIndex), otherwise record i in the
cell and run the selected function — the next middleware with the dispatch
of i+1 as continuation, the terminal after the last middleware, or resolve
when no terminal was supplied.  A synchronous throw and a rejection share
the error channel, as lines 27-31 convert the former into the latter. -/
def dispatchGo (next? : Option Term) : List MwS → Nat → MAct
  | [], i => fun s =>
      if (i : Int) ≤ s.1 then (.error dblNextErr, s)
      else
        match next? with
        | some n =>
            let rs := n s.2
            (rs.1, ((i : Int), rs.2))
        | none => (.ok .vundef, ((i : Int), s.2))
  | f :: rest, i => fun s =>
      if (i : Int) ≤ s.1 then (.error dblNextErr, s)
      else f (dispatchGo next? rest (i + 1)) ((i : Int), s.2)

/-- compose(middlewares) of src/compose.ts lines 7-36: the empty fast path
calls the terminal (or resolves) directly; otherwise every invocation
allocates a fresh lastIndex cell at -1 and starts dispatch(0).  There is no
single-element fast path in the source. -/
def compose (middlewares : List MwS) : Option Term → Term :=
  if middlewares.isEmpty then fun next? st =>
    match next? with
    | some n => n st
    | none => (.ok .vundef, st)
  else fun next? st =>
    let rs := dispatchGo next? middlewares 0 (-1, st)
    (rs.1, rs.2.2)

/-- Invoking a middleware step directly in composed position, as the claim
that compose([f]) returns the step itself would entail: the terminal is
handed to the step as its continuation; no dispatch machinery exists, so the
inert cell stays at -1 and nothing guards repeated continuation calls. -/
def invokeDirect (f : MwS) (next? : Option Term) : Term := fun st =>
  let n : MAct := fun s =>
    match next? with
    | some n0 =>
        let rs := n0 s.2
        (rs.1, (s.1, rs.2))
    | none => (.ok .vundef, s)
  let rs := f n (-1, st)
  (rs.1, rs.2.2)

/-- A step that invokes its continuation twice in sequence, returning the
result of the second call (first call errors pass through). -/
def dblMw : MwS := fun next => fun s =>
  let r1 := next s
  match r1.1 with
  | .ok _ => next r1.2
  | .error e => (.error e, r1.2)

/-- A terminal continuation that records its invocation in the log. -/
def tickTerm : Term := fun st => (.ok .vundef, ⟨st.ctx, st.log ++ ["t"]⟩)

/-- The empty starting state for concrete executions. -/
def st0 : CState := ⟨[], []⟩

/-- A well-behaved step family: apply a state transformation, then invoke
the continuation exactly once and return its result. -/
def mkStep (g : CState → CState) : MwS := fun next => fun s => next (s.1, g s.2)

end Onion

/-- Truthiness skip test of src/macros.ts line 38: option values that are
false or nullish deactivate their key. -/
def optSkipped : OptVal → Bool
  | .pval (.vbool false) => true
  | .pval .vnull => true
  | .pval .vundef => true
  | _ => false

/-- Spread a one-or-many middleware slot (src/macros.ts lines 49-55). -/
def spreadMaybeArr : MaybeArr → List Fn
  | .one f => [f]
  | .many fs => fs

/-- The argument handed to a parameterized macro definition: undefined when
the option value is the literal true (meaning no explicit options), the
value itself otherwise (src/macros.ts line 45). -/
def macroArg (v : OptVal) : Option OptVal :=
  match v with
  | .pval (.vbool true) => none
  | _ => some v

/-- Resolve a macro definition to its hooks (src/macros.ts lines 44-46). -/
def resolveHooks (d : MacroDef) (v : OptVal) : MacroHooks :=
  match d with
  | .fnDef f => f (macroArg v)
  | .objDef h => h

/-- The explicit pre-steps the caller supplied under the preHandler key
(src/macros.ts lines 24-31): a single middleware or an array, spread in
given order.  Plain values under that key are not middleware and are not
modelled. -/
def explicitPre (options : List (String × OptVal)) : List Fn :=
  match recordGet options "preHandler" with
  | some (.pone f) => [f]
  | some (.pmany fs) => fs
  | _ => []

/-- buildFromOptions of src/macros.ts lines 14-76, with the mutable chain
array as a fold accumulator: absent options return the handler unchanged;
otherwise the explicit preHandler steps come first, then per remaining
option key in declaration order — skipping false/nullish values and keys
naming no registered macro — the resolved hooks contribute their preHandler
step(s) and, when derive is declared, the inline derive/stop step; the
handler is pushed last, and a one-element chain is returned unwrapped
instead of composed. -/
def buildFromOptions (macros : List (String × MacroDef))
    (options : Option (List (String × OptVal))) (handler : Fn) : Fn :=
  match options with
  | none => handler
  | some opts =>
    let chain1 := opts.foldl (fun chain kv =>
      if kv.1 = "preHandler" then chain
      else if optSkipped kv.2 then chain
      else
        match recordGet macros kv.1 with
        | none => chain
        | some d =>
          let hooks := resolveHooks d kv.2
          let chain' := chain ++ (match hooks.preHandler with
            | some ph => spreadMaybeArr ph
            | none => [])
          match hooks.derive with
          | some dv => chain' ++ [.macroDerive dv]
          | none => chain') (explicitPre opts)
    match chain1 ++ [handler] with
    | [f] => f
    | l => .comp l

/-- The steps one option key contributes according to the specified build
order: nothing for the preHandler key, a deactivated value or an
unregistered name; otherwise the resolved macro preHandler step(s) followed
by its derive step when declared. -/
def macroContribution (macros : List (String × MacroDef))
    (kv : String × OptVal) : List Fn :=
  if kv.1 = "preHandler" then []
  else if optSkipped kv.2 then []
  else
    match recordGet macros kv.1 with
    | none => []
    | some d =>
      let hooks := resolveHooks d kv.2
      (match hooks.preHandler with
        | some ph => spreadMaybeArr ph
        | none => []) ++
      (match hooks.derive with
        | some dv => [Fn.macroDerive dv]
        | none => [])

/-- Modelled from the claim wording, for comparison with the source
translation: the chain is the concatenation of the explicit pre-steps, the
per-key macro contributions in declaration order, and the handler; absent
options give the handler directly and a length-one list is unwrapped. -/
def buildFromOptionsSpec (macros : List (String × MacroDef))
    (options : Option (List (String × OptVal))) (handler : Fn) : Fn :=
  match options with
  | none => handler
  | some opts =>
    match explicitPre opts ++ opts.flatMap (macroContribution macros) ++ [handler] with
    | [f] => f
    | l => .comp l

/-- State of the concurrent event queue (src/queue.ts lines 5-10), with two
instrumentation fields: in-flight tasks are counted (their identities do not
matter to any claim), and notifiedWaiters counts how many queued idle
resolvers have been invoked. -/
structure EventQueue (T : Type) where
  queue : List T
  pendingUpdates : Nat
  active : Bool
  idleResolvers : Nat
  notifiedWaiters : Nat

namespace EventQueue

/-- The drain loop (src/queue.ts lines 57-68): while the backlog is
non-empty and the queue is active, shift the earliest event and start the
handler on it as a new in-flight task.  The active flag cannot change inside
the synchronous loop, so an active queue starts the whole backlog in FIFO
order and an inactive queue starts nothing.  Returns the started events. -/
def process {T : Type} (q : EventQueue T) : EventQueue T × List T :=
  if q.active then
    ({ q with queue := [], pendingUpdates := q.pendingUpdates + q.queue.length },
      q.queue)
  else (q, [])

/-- checkIdle (src/queue.ts lines 70-77): when the backlog and the in-flight
set are both empty, invoke and clear every queued idle resolver. -/
def checkIdle {T : Type} (q : EventQueue T) : EventQueue T :=
  if q.queue.isEmpty && q.pendingUpdates == 0 then
    { q with notifiedWaiters := q.notifiedWaiters + q.idleResolvers, idleResolvers := 0 }
  else q

/-- add(event) (src/queue.ts lines 16-19): push, then drain. -/
def add {T : Type} (q : EventQueue T) (e : T) : EventQueue T × List T :=
  process { q with queue := q.queue ++ [e] }

/-- addBatch(events) (src/queue.ts lines 21-24): push all, then drain. -/
def addBatch {T : Type} (q : EventQueue T) (es : List T) : EventQueue T × List T :=
  process { q with queue := q.queue ++ es }

/-- Settlement of one in-flight task — the continuation attached when the
task was started (src/queue.ts lines 60-65): remove it from the in-flight
set and re-check idleness.  Handler failures were already caught and
discarded before this point. -/
def settleOne {T : Type} (q : EventQueue T) : EventQueue T :=
  if q.pendingUpdates = 0 then q
  else checkIdle { q with pendingUpdates := q.pendingUpdates - 1 }

/-- onIdle() (src/queue.ts lines 36-43): resolve immediately when already
idle, otherwise queue a resolver.  The Bool reports immediate resolution. -/
def onIdle {T : Type} (q : EventQueue T) : EventQueue T × Bool :=
  if q.queue.isEmpty && q.pendingUpdates == 0 then (q, true)
  else ({ q with idleResolvers := q.idleResolvers + 1 }, false)

/-- The synchronous effect of stop() (src/queue.ts line 27): clear the
active flag.  No operation ever sets it back. -/
def stopFlag {T : Type} (q : EventQueue T) : EventQueue T := { q with active := false }

/-- When the promise returned by stop() settles (src/queue.ts lines 29-33):
Promise.race of the onIdle() promise — settling at the idle time, when one
occurs — and a setTimeout promise that always resolves at the timeout.
Both branches only ever resolve, so stop() never rejects, and it settles at
the earlier of the two times. -/
def stopSettleTime (idleAt : Option Nat) (timeout : Nat) : Nat :=
  match idleAt with
  | some t => min t timeout
  | none => timeout

/-- Operations that can hit the queue from a given point on. -/
inductive QOp (T : Type) where
  | add (e : T)
  | addBatch (es : List T)
  | settle
  | onIdleOp
  | stopOp

/-- Apply one operation; the second component lists the events started. -/
def applyOp {T : Type} (q : EventQueue T) : QOp T → EventQueue T × List T
  | .add e => add q e
  | .addBatch es => addBatch q es
  | .settle => (settleOne q, [])
  | .onIdleOp => ((onIdle q).1, [])
  | .stopOp => (stopFlag q, [])

/-- Run a sequence of operations, accumulating every started event. -/
def runOps {T : Type} (q : EventQueue T) : List (QOp T) → EventQueue T × List T
  | [] => (q, [])
  | op :: rest =>
    let r1 := applyOp q op
    let r2 := runOps r1.1 rest
    (r2.1, r1.2 ++ r2.2)

end EventQueue


/-! ### Helper lemmas -/

theorem recordGet_set_self {α : Type} (l : List (String × α)) (k : String) (v : α) :
    recordGet (recordSet l k v) k = some v := by
  induction l with
  | nil => simp [recordSet, recordGet]
  | cons kv rest ih =>
    by_cases h : kv.1 = k
    · simp [recordSet, recordGet, h]
    · simp [recordSet, recordGet, h, ih]

theorem recordGet_set_ne {α : Type} (l : List (String × α)) (k k' : String) (v : α)
    (h : k' ≠ k) : recordGet (recordSet l k v) k' = recordGet l k' := by
  have hne : ¬k = k' := fun hh => h hh.symm
  induction l with
  | nil => simp [recordSet, recordGet, hne]
  | cons kv rest ih =>
    obtain ⟨k0, v0⟩ := kv
    by_cases hk : k0 = k
    · subst hk
      simp [recordSet, recordGet, hne]
    · by_cases hk' : k0 = k'
      · simp [recordSet, recordGet, hk, hk', hne, h]
      · simp [recordSet, recordGet, hk, hk', ih]

theorem recordGet_assign_not_mem {α : Type} (t s : List (String × α)) (k : String)
    (h : k ∉ recordKeys s) : recordGet (recordAssign t s) k = recordGet t k := by
  induction s generalizing t with
  | nil => simp [recordAssign]
  | cons kv rest ih =>
    simp only [recordKeys, List.map_cons, List.mem_cons] at h
    push_neg at h
    have step : recordAssign t (kv :: rest) = recordAssign (recordSet t kv.1 kv.2) rest := by
      simp [recordAssign]
    rw [step, ih _ (by simpa [recordKeys] using h.2)]
    exact recordGet_set_ne t kv.1 k kv.2 h.1

theorem recordGet_assign_mem {α : Type} (t s : List (String × α)) (k : String) (v : α)
    (hnd : (recordKeys s).Nodup) (hmem : (k, v) ∈ s) :
    recordGet (recordAssign t s) k = some v := by
  induction s generalizing t with
  | nil => cases hmem
  | cons kv rest ih =>
    have step : recordAssign t (kv :: rest) = recordAssign (recordSet t kv.1 kv.2) rest := by
      simp [recordAssign]
    simp only [recordKeys, List.map_cons, List.nodup_cons] at hnd
    rcases List.mem_cons.mp hmem with heq | hrest
    · subst heq
      rw [step, recordGet_assign_not_mem _ _ _ (by simpa [recordKeys] using hnd.1),
        recordGet_set_self]
    · exact step ▸ ih _ hnd.2 hrest

theorem recordGet_eq_some_of_mem {α : Type} (l : List (String × α)) (k : String) (v : α)
    (hnd : (recordKeys l).Nodup) (hmem : (k, v) ∈ l) : recordGet l k = some v := by
  induction l with
  | nil => cases hmem
  | cons kv rest ih =>
    simp only [recordKeys, List.map_cons, List.nodup_cons] at hnd
    rcases List.mem_cons.mp hmem with heq | hrest
    · subst heq; simp [recordGet]
    · have hne : kv.1 ≠ k := by
        intro hk
        exact hnd.1 (hk ▸ List.mem_map.mpr ⟨(k, v), hrest, rfl⟩)
      simp [recordGet, hne, ih hnd.2 hrest]

theorem recordGet_eq_none_of_not_mem {α : Type} (l : List (String × α)) (k : String)
    (h : k ∉ recordKeys l) : recordGet l k = none := by
  induction l with
  | nil => simp [recordGet]
  | cons kv rest ih =>
    simp only [recordKeys, List.map_cons, List.mem_cons] at h
    push_neg at h
    simp [recordGet, Ne.symm h.1, ih (by simpa [recordKeys] using h.2)]

theorem ctxGet_isolatedRestore (pre post : Ctx) (k : String)
    (hnd : (ctxKeys pre).Nodup) :
    ctxGet (isolatedRestore pre post) k = ctxGet pre k := by
  unfold ctxGet isolatedRestore jsAssign
  have hnd' : (recordKeys pre).Nodup := hnd
  by_cases hk : k ∈ recordKeys pre
  · obtain ⟨kv, hmem, hfst⟩ := List.mem_map.mp hk
    obtain ⟨k', v⟩ := kv
    simp only at hfst
    subst hfst
    rw [recordGet_eq_some_of_mem pre k' v hnd' hmem]
    exact recordGet_assign_mem _ pre k' v hnd' hmem
  · rw [recordGet_eq_none_of_not_mem pre k hk, recordGet_assign_not_mem _ _ _ hk]
    apply recordGet_eq_none_of_not_mem
    intro hmemk
    obtain ⟨kv, hmem', hfst⟩ := List.mem_map.mp hmemk
    have hin : (ctxKeys pre).contains kv.1 = true := (List.mem_filter.mp hmem').2
    apply hk
    rw [← hfst]
    simpa [ctxKeys, recordKeys] using hin

theorem fnList_sizeOf_append (l1 l2 : List Fn) :
    sizeOf (l1 ++ l2) + 1 = sizeOf l1 + sizeOf l2 := by
  induction l1 with
  | nil => simp only [List.nil_append, List.nil.sizeOf_spec]; omega
  | cons f rest ih =>
    simp only [List.cons_append, List.cons.sizeOf_spec]
    omega

/-! ### Claim theorems -/

/-- C2: Snapshot isolation.  For every isolated nested run — the wrapper
group() appends and the single local entry extend() creates both restore via
`isolatedRestore` — and for every context whose keys added during the run
are removable (all keys, in this model of plain configurable properties):
after the nested chain settles and the wrapper restores, on the context the
outer continuation observes, every key that existed before the run holds its
pre-run value and every key added during the run is absent — the lookup of
every key is exactly its pre-run lookup.  The second conjunct records that
the interpreter hands the outer continuation exactly this restored context
and always invokes it. -/
theorem claim_C2_snapshot_isolation (sub rest : List Fn) (ctx : Ctx) (k : String)
    (hnd : (ctxKeys ctx).Nodup) :
    ctxGet (isolatedRestore ctx (execFns sub ctx).ctx) k = ctxGet ctx k ∧
    execFns (.isolated sub :: rest) ctx =
      ⟨(execFns rest (isolatedRestore ctx (execFns sub ctx).ctx)).ctx,
        (execFns sub ctx).log ++
          (execFns rest (isolatedRestore ctx (execFns sub ctx).ctx)).log,
        (execFns rest (isolatedRestore ctx (execFns sub ctx).ctx)).term⟩ := by
  exact ⟨ctxGet_isolatedRestore _ _ _ hnd, by simp [execFns]⟩

/-- C2 witness: a nested chain that overwrites the pre-existing key J and
adds the key K leaves the outer view of J at its pre-run value. -/
theorem claim_C2_witness :
    ctxGet
      (isolatedRestore [("J", .vnum 0)]
        (execFns [.eff (fun c => jsAssign c [("J", .vnum 9), ("K", .vnum 1)])]
          [("J", .vnum 0)]).ctx) "J" = ctxGet [("J", .vnum 0)] "J" ∧
    ctxGet
      (isolatedRestore [("J", .vnum 0)]
        (execFns [.eff (fun c => jsAssign c [("J", .vnum 9), ("K", .vnum 1)])]
          [("J", .vnum 0)]).ctx) "K" = ctxGet [("J", .vnum 0)] "K" :=
  ⟨(claim_C2_snapshot_isolation
      [.eff (fun c => jsAssign c [("J", .vnum 9), ("K", .vnum 1)])] []
      [("J", .vnum 0)] "J" (by decide)).1,
    (claim_C2_snapshot_isolation
      [.eff (fun c => jsAssign c [("J", .vnum 9), ("K", .vnum 1)])] []
      [("J", .vnum 0)] "K" (by decide)).1⟩

/-- C1 counterexample: the claim that every listed registration call leaves
the compiled cache absent — and that any registration call between two
compose() calls makes the second return a different reference — fails for
error() and macro(): on a freshly compiled registry, error() (and macroReg)
leaves the cache populated with the same token, and the next compose()
returns that same token, not a different one. -/
theorem claim_C1_counterexample :
    ((((Composer.empty.use [.prim 0]).compose 1).2.error "E"
        (fun _ => true)).compiled = some 1) ∧
    ((((Composer.empty.use [.prim 0]).compose 1).2.macroReg "m"
        (.objDef ⟨none, none⟩)).compiled = some 1) ∧
    (((((Composer.empty.use [.prim 0]).compose 1).2.error "E"
        (fun _ => true)).compose 2).1 = 1) ∧
    (1 : Nat) ≠ 2 :=
  ⟨rfl, rfl, rfl, by decide⟩

/-- C1 (amended): every mutating registration operation except error() and
macro() — use, derive, decorate, guard, branch, route, fork, tap, lazy,
onError, when, group and extend (when not suppressed as a dedup no-op) —
leaves the compiled cache absent, and the cache is repopulated only by the
next compose(); error() and macro() leave the cache untouched.  compose()
called twice with no intervening invalidation returns the same compiled
token and registry; an invalidating registration between two compose()
calls makes the second return the fresh token, which differs from the first
whenever the supplied token is fresh. -/
theorem claim_C1_amended :
    (∀ c mws (f1 f2 : Nat), f2 ≠ (Composer.compose c f1).1 →
      ((((Composer.compose c f1).2.use mws).compose f2).1 = f2 ∧
        (((Composer.compose c f1).2.use mws).compose f2).1 ≠
          (Composer.compose c f1).1)) ∧
    (∀ c (f1 f2 : Nat),
      (Composer.compose c f1).2.compose f2 =
        ((Composer.compose c f1).1, (Composer.compose c f1).2)) ∧
    (∀ c mws, (Composer.use c mws).compiled = none) ∧
    (∀ c h s, (Composer.derive c h s).compiled = none) ∧
    (∀ c v s, (Composer.decorate c v s).compiled = none) ∧
    (∀ c p mws, (Composer.guard c p mws).compiled = none) ∧
    (∀ c pr t e, (Composer.branch c pr t e).compiled = none) ∧
    (∀ c, (Composer.route c).compiled = none) ∧
    (∀ c, (Composer.fork c).compiled = none) ∧
    (∀ c mws, (Composer.tap c mws).compiled = none) ∧
    (∀ c, (Composer.lazy c).compiled = none) ∧
    (∀ c h, (Composer.onError c h).compiled = none) ∧
    (∀ c b temp, (Composer.when c b temp).compiled = none) ∧
    (∀ c nested, (Composer.group c nested).compiled = none) ∧
    (∀ t other, other.name = none → (Composer.extend t other).compiled = none) ∧
    (∀ t other nm, other.name = some nm →
      t.extended.contains (dedupKeyOf nm other.seed) = false →
      (Composer.extend t other).compiled = none) ∧
    (∀ c k cls, (Composer.error c k cls).compiled = c.compiled) ∧
    (∀ c n d, (Composer.macroReg c n d).compiled = c.compiled) := by
  refine ⟨?_, ?_, ?_, ?_, ?_, ?_, ?_, ?_, ?_, ?_, ?_, ?_, ?_, ?_, ?_, ?_, ?_, ?_⟩
  · intro c mws f1 f2 hne
    cases hc : c.compiled <;>
      simp_all [Composer.compose, Composer.use, Composer.invalidate]
  · intro c f1 f2
    cases hc : c.compiled <;> simp [Composer.compose, hc]
  · intro c mws; rfl
  · intro c h s; rfl
  · intro c v s; rfl
  · intro c p mws; rfl
  · intro c pr t e
    cases pr with
    | lit b => cases b with
      | true => rfl
      | false => cases e <;> rfl
    | dyn p => rfl
  · intro c; rfl
  · intro c; rfl
  · intro c mws; rfl
  · intro c; rfl
  · intro c h; rfl
  · intro c b temp; cases b <;> rfl
  · intro c nested; rfl
  · intro t other hname
    simp [Composer.extend, hname, Composer.invalidate]
  · intro t other nm hname hkey
    have hkey' : dedupKeyOf nm other.seed ∉ t.extended := by simpa using hkey
    simp [Composer.extend, hname, hkey', Composer.invalidate]
  · intro c k cls; rfl
  · intro c n d; rfl

/-- C1 witness: on a concrete one-step registry compiled with token 1, a
use() between two compose() calls makes the second return the fresh token
2, different from 1. -/
theorem claim_C1_witness :
    ((((Composer.compose (Composer.empty.use [.prim 0]) 1).2.use
        [.prim 5]).compose 2).1 = 2 ∧
      (((Composer.compose (Composer.empty.use [.prim 0]) 1).2.use
        [.prim 5]).compose 2).1 ≠
        (Composer.compose (Composer.empty.use [.prim 0]) 1).1) :=
  claim_C1_amended.1 (Composer.empty.use [.prim 0]) [.prim 5] 1 2 (by decide)

/-- C3: Transitive deduplication, on the claim scenario with arbitrary
middleware payloads and context.  Registry B (own step j) has already
extended the named registry A (steps i1, i2), so B inherits the dedup key of
A and the A-derived entry in B carries A as origin-plugin tag.  A target
that extends B and then A runs every step of A exactly once — the later
extend(A) is suppressed outright by the inherited key (first conjunct) and
the run log lists each step of A once (second conjunct).  In the reverse
order (extend A, then B), the A-tagged entry inside B is excluded at entry
granularity because the key of A was recorded before that merge, and again
each step of A runs exactly once (third conjunct). -/
theorem claim_C3_transitive_dedup (i1 i2 j : Nat) (ctx : Ctx) :
    (((Composer.empty.extend
        (((Composer.create (some "B") none).use [.prim j]).extend
          ((Composer.create (some "A") none).use [.prim i1, .prim i2]))).extend
        ((Composer.create (some "A") none).use [.prim i1, .prim i2])) =
      Composer.empty.extend
        (((Composer.create (some "B") none).use [.prim j]).extend
          ((Composer.create (some "A") none).use [.prim i1, .prim i2]))) ∧
    (Composer.runExec
      ((Composer.empty.extend
        (((Composer.create (some "B") none).use [.prim j]).extend
          ((Composer.create (some "A") none).use [.prim i1, .prim i2]))).extend
        ((Composer.create (some "A") none).use [.prim i1, .prim i2])) ctx).log =
      [j, i1, i2] ∧
    (Composer.runExec
      ((Composer.empty.extend
        ((Composer.create (some "A") none).use [.prim i1, .prim i2])).extend
        (((Composer.create (some "B") none).use [.prim j]).extend
          ((Composer.create (some "A") none).use [.prim i1, .prim i2]))) ctx).log =
      [i1, i2, j] :=
  by
  have h1 : strStartsWith "B:null" "A:" = false := by decide
  have h2 : strStartsWith "A:null" "A:" = true := by decide
  refine ⟨rfl, ?_, ?_⟩ <;>
    simp [Composer.runExec, Composer.use, Composer.create, Composer.invalidate, Composer.empty,
      Composer.extend, execFns, addKey, dedupKeyOf, seedKeyPart, jsonStringify, h1, h2,
      List.filter_cons, List.filter_nil]

/-- C4: extend(other) is idempotent for a named plugin.  (1) When other has
an identity name and its dedup key (name plus serialized seed, the seed
defaulting to null) is already present in the dedup set of the target,
extend returns the target registry itself, completely unchanged — no
middleware entries, error handlers, kind classifiers, macros or dedup keys
are added.  (2) Extending the same name+seed registry twice into one target
is a no-op the second time and executes its middleware exactly once per
run, for arbitrary name, seed, step payload and context.  (3) Two
registries sharing a name but carrying structurally different seeds (here the string
seeds "100" and "200", mirroring the repository test suite) both execute. -/
theorem claim_C4_extend_idempotent :
    (∀ (t other : Composer) (nm : String), other.name = some nm →
      t.extended.contains (dedupKeyOf nm other.seed) = true →
      t.extend other = t) ∧
    (∀ (nm : String) (seed : Option Val) (i : Nat) (ctx : Ctx),
      ((Composer.empty.extend
          ((Composer.create (some nm) seed).use [.prim i])).extend
          ((Composer.create (some nm) seed).use [.prim i]) =
        Composer.empty.extend ((Composer.create (some nm) seed).use [.prim i])) ∧
      (Composer.runExec
        ((Composer.empty.extend
          ((Composer.create (some nm) seed).use [.prim i])).extend
          ((Composer.create (some nm) seed).use [.prim i])) ctx).log = [i]) ∧
    (∀ (i1 i2 : Nat) (ctx : Ctx),
      (Composer.runExec
        ((Composer.empty.extend
            ((Composer.create (some "rate-limit") (some (.vstr "100"))).use
              [.prim i1])).extend
          ((Composer.create (some "rate-limit") (some (.vstr "200"))).use
            [.prim i2])) ctx).log = [i1, i2]) := by
  refine ⟨?_, ?_, ?_⟩
  · intro t other nm hname hkey
    have hmem : dedupKeyOf nm other.seed ∈ t.extended := by simpa using hkey
    simp [Composer.extend, hname, hmem]
  · intro nm seed i ctx
    have heq : (Composer.empty.extend
        ((Composer.create (some nm) seed).use [.prim i])).extend
        ((Composer.create (some nm) seed).use [.prim i]) =
        Composer.empty.extend ((Composer.create (some nm) seed).use [.prim i]) := by
      simp [Composer.extend, Composer.use, Composer.create, Composer.empty,
        Composer.invalidate, addKey, List.filter_cons, List.filter_nil]
    refine ⟨heq, ?_⟩
    rw [heq]
    simp [Composer.runExec, Composer.use, Composer.create, Composer.invalidate,
      Composer.empty, Composer.extend, execFns, addKey, List.filter_cons, List.filter_nil]
  · intro i1 i2 ctx
    simp [Composer.runExec, Composer.use, Composer.create, Composer.invalidate,
      Composer.empty, Composer.extend, execFns, addKey, dedupKeyOf, seedKeyPart,
      jsonStringify, List.filter_cons, List.filter_nil]

/-- C4 witness: a concrete plugin named auth, already merged, is a no-op on
the second extend. -/
theorem claim_C4_witness :
    (Composer.empty.extend
        ((Composer.create (some "auth") none).use [.prim 0])).extend
        ((Composer.create (some "auth") none).use [.prim 0]) =
      Composer.empty.extend ((Composer.create (some "auth") none).use [.prim 0]) :=
  claim_C4_extend_idempotent.1
    (Composer.empty.extend ((Composer.create (some "auth") none).use [.prim 0]))
    ((Composer.create (some "auth") none).use [.prim 0]) "auth" rfl (by decide)

/-- C6: guard() gate mode.  (a) With no extra middleware supplied, a truthy
predicate lets the chain proceed — the following steps run and the outer
(terminal) continuation is invoked exactly once — while a falsy predicate
invokes nothing: the remaining steps of this composer are skipped and the
continuation count is zero.  (b) When such a registry is merged into a
parent via extend(), the isolation wrapper invokes the continuation of the
parent after the nested chain settles regardless of the gate: the steps of
the parent that follow the merged plugin run, and the parent terminal is
invoked exactly once, whether or not the gate fired. -/
theorem claim_C6_guard_gate (p : Ctx → Bool) (i0 i1 i2 : Nat) (ctx : Ctx) :
    (Composer.runExec ((Composer.empty.guard p []).use [.prim i1, .prim i2]) ctx =
      if p ctx then ⟨ctx, [i1, i2], 1⟩ else ⟨ctx, [], 0⟩) ∧
    ((Composer.runExec
        (((Composer.empty.use [.prim i0]).extend
          (((Composer.create (some "g") none).guard p []).use [.prim i1])).use
          [.prim i2]) ctx).log =
      i0 :: ((if p ctx then [i1] else []) ++ [i2])) ∧
    ((Composer.runExec
        (((Composer.empty.use [.prim i0]).extend
          (((Composer.create (some "g") none).guard p []).use [.prim i1])).use
          [.prim i2]) ctx).term = 1) := by
  by_cases hp : p ctx <;>
    simp [Composer.runExec, Composer.guard, Composer.use, Composer.create,
      Composer.empty, Composer.invalidate, Composer.extend, execFns, addKey,
      List.filter_cons, List.filter_nil, hp]

theorem runErrorHandlers_append_skip (info : ErrorCtx) (hs1 rest : List ErrHandler)
    (hskip : ∀ h ∈ hs1, h info = .ok .vundef) :
    Composer.runErrorHandlers info (hs1 ++ rest) =
      ⟨(Composer.runErrorHandlers info rest).result,
        (Composer.runErrorHandlers info rest).handlersRun + hs1.length,
        (Composer.runErrorHandlers info rest).logged⟩ := by
  induction hs1 with
  | nil => simp
  | cons h hs ih =>
    have hh : h info = .ok .vundef := hskip h (by simp)
    have ih' := ih (fun h' hm => hskip h' (by simp [hm]))
    simp [Composer.runErrorHandlers, hh, ih']
    omega

theorem runErrorHandlers_all_ok (info : ErrorCtx) (hs : List ErrHandler)
    (hok : ∀ h ∈ hs, ∃ v, h info = .ok v) :
    ∃ v, (Composer.runErrorHandlers info hs).result = .ok v := by
  induction hs with
  | nil => exact ⟨.vundef, rfl⟩
  | cons h rest ih =>
    obtain ⟨v, hv⟩ := hok h (by simp)
    by_cases hu : v = .vundef
    · subst hu
      obtain ⟨w, hw⟩ := ih (fun h' hm => hok h' (by simp [hm]))
      exact ⟨w, by simp [Composer.runErrorHandlers, hv, hw]⟩
    · exact ⟨v, by simp [Composer.runErrorHandlers, hv, hu]⟩

/-- C5: Error boundary result determination.  Writing `info` for the record
(error, context, kind) that the boundary hands to every handler — the kind
being the first registered classifier matching the thrown value —
(1) when the handler list splits as hs1 ++ h :: hs2 with every handler of
hs1 yielding undefined and h yielding a value v that is not undefined, the
boundary stops at h: its result is v, exactly hs1.length + 1 handlers were
invoked (the handlers after h never run) and nothing is logged;
(2) when every registered handler yields undefined, all of them are invoked,
the error is logged to the default diagnostic channel and swallowed — the
chain resolves with undefined;
(3) whenever no handler throws, the boundary resolves (never rejects), for
any application error that escaped the chain;
(4) a chain that did not fail passes through the boundary untouched. -/
theorem claim_C5_error_boundary (c : Composer) (ctx : Ctx) (e : Val) :
    (∀ (hs1 hs2 : List ErrHandler) (h : ErrHandler) (v : Val),
      c.onErrors = hs1 ++ h :: hs2 →
      (∀ h' ∈ hs1,
        h' ⟨e, ctx, Composer.resolveKind c.errorsDefinitions e⟩ = .ok .vundef) →
      h ⟨e, ctx, Composer.resolveKind c.errorsDefinitions e⟩ = .ok v →
      v ≠ .vundef →
      c.boundaryRun ctx (.error e) = ⟨.ok v, hs1.length + 1, false⟩) ∧
    ((∀ h' ∈ c.onErrors,
        h' ⟨e, ctx, Composer.resolveKind c.errorsDefinitions e⟩ = .ok .vundef) →
      c.boundaryRun ctx (.error e) = ⟨.ok .vundef, c.onErrors.length, true⟩) ∧
    ((∀ h' ∈ c.onErrors,
        ∃ v, h' ⟨e, ctx, Composer.resolveKind c.errorsDefinitions e⟩ = .ok v) →
      ∃ v, (c.boundaryRun ctx (.error e)).result = .ok v) ∧
    (∀ v, c.boundaryRun ctx (.ok v) = ⟨.ok v, 0, false⟩) := by
  refine ⟨?_, ?_, ?_, fun v => rfl⟩
  · intro hs1 hs2 h v hsplit hskip hh hv
    show Composer.runErrorHandlers _ c.onErrors = _
    rw [hsplit, runErrorHandlers_append_skip _ _ _ hskip]
    simp [Composer.runErrorHandlers, hh, hv]
    omega
  · intro hall
    show Composer.runErrorHandlers _ c.onErrors = _
    have : ∀ (hs : List ErrHandler),
        (∀ h' ∈ hs,
          h' ⟨e, ctx, Composer.resolveKind c.errorsDefinitions e⟩ = .ok .vundef) →
        Composer.runErrorHandlers
          ⟨e, ctx, Composer.resolveKind c.errorsDefinitions e⟩ hs =
          ⟨.ok .vundef, hs.length, true⟩ := by
      intro hs
      induction hs with
      | nil => intro _; rfl
      | cons h rest ih =>
        intro hall'
        have hh : h ⟨e, ctx, Composer.resolveKind c.errorsDefinitions e⟩ =
            .ok .vundef := hall' h (by simp)
        simp [Composer.runErrorHandlers, hh,
          ih (fun h' hm => hall' h' (by simp [hm]))]
    exact this c.onErrors hall
  · intro hok
    exact runErrorHandlers_all_ok _ _ hok

/-- C5 witness: with handlers yielding no value, "X" and "Y" in that order,
the boundary resolves with "X" after invoking exactly two handlers — the
third never runs — and logs nothing. -/
theorem claim_C5_witness :
    (((Composer.empty.onError (fun _ => .ok .vundef)).onError
        (fun _ => .ok (.vstr "X"))).onError
        (fun _ => .ok (.vstr "Y"))).boundaryRun [] (.error (.vstr "boom")) =
      ⟨.ok (.vstr "X"), 2, false⟩ :=
  (claim_C5_error_boundary
      (((Composer.empty.onError (fun _ => .ok .vundef)).onError
        (fun _ => .ok (.vstr "X"))).onError (fun _ => .ok (.vstr "Y")))
      [] (.vstr "boom")).1
    [fun _ => .ok .vundef] [fun _ => .ok (.vstr "Y")]
    (fun _ => .ok (.vstr "X")) (.vstr "X") rfl
    (by intro h' hm; rw [List.mem_singleton.mp hm]) rfl (by decide)

/-- C7 counterexample: compose([f]) is not the step f itself and is not
observably identical to it.  For the step that invokes its continuation
twice, compose([f]) rejects with the double-continuation error after one
terminal tick, while the bare step run in the same position resolves and
ticks the terminal twice — so the standalone compose() has no single-step
pass-through. -/
theorem claim_C7_counterexample :
    Onion.compose [Onion.dblMw] (some Onion.tickTerm) Onion.st0 =
      (.error Onion.dblNextErr, ⟨[], ["t"]⟩) ∧
    Onion.invokeDirect Onion.dblMw (some Onion.tickTerm) Onion.st0 =
      (.ok .vundef, ⟨[], ["t", "t"]⟩) ∧
    Onion.compose [Onion.dblMw] (some Onion.tickTerm) Onion.st0 ≠
      Onion.invokeDirect Onion.dblMw (some Onion.tickTerm) Onion.st0 := by
  refine ⟨rfl, rfl, ?_⟩
  intro h
  rw [show Onion.compose [Onion.dblMw] (some Onion.tickTerm) Onion.st0 =
      (.error Onion.dblNextErr, ⟨[], ["t"]⟩) from rfl,
    show Onion.invokeDirect Onion.dblMw (some Onion.tickTerm) Onion.st0 =
      (.ok .vundef, ⟨[], ["t", "t"]⟩) from rfl] at h
  simp at h

/-- C7 (amended): compose([f]) does not return the step f itself — it
returns the general dispatch wrapper, which differs observably from f on a
step that invokes its continuation more than once (see the counterexample,
where the wrapper adds double-continuation protection).  For a step that
invokes its continuation exactly once, the wrapper is observably equivalent
to invoking the step directly: result, context and log agree on every input,
with or without a terminal.  The empty fast path of the source is also
recorded: compose([]) invokes the terminal directly (or resolves when none
is given). -/
theorem claim_C7_amended :
    (∀ (g : Onion.CState → Onion.CState) (n : Onion.Term) (st : Onion.CState),
      Onion.compose [Onion.mkStep g] (some n) st =
        Onion.invokeDirect (Onion.mkStep g) (some n) st) ∧
    (∀ (g : Onion.CState → Onion.CState) (st : Onion.CState),
      Onion.compose [Onion.mkStep g] none st =
        Onion.invokeDirect (Onion.mkStep g) none st) ∧
    (∀ (n : Onion.Term) (st : Onion.CState),
      Onion.compose [] (some n) st = n st) ∧
    (∀ st : Onion.CState, Onion.compose [] none st = (.ok .vundef, st)) :=
  ⟨fun _ _ _ => rfl, fun _ _ => rfl, fun _ _ => rfl, fun _ => rfl⟩

/-- C8: buildFromOptions.  (1) The source translation coincides with the
build order the claim specifies (`buildFromOptionsSpec`, written from the
claim wording): the explicit preHandler step(s) of the caller first in given
order, then for each remaining option key in declaration order whose value
is not false/absent and which names a registered macro, that macro
preHandler step(s) followed — when the macro declares derive — by the
inline derive step, with the handler pushed last, a length-one list being
returned unwrapped rather than composed.  (2) Absent options return the
handler unchanged.  (3) The pushed derive step stops the chain when the
derive yields no value and otherwise merges the result into the context and
continues. -/
theorem claim_C8_buildFromOptions :
    (∀ (macros : List (String × MacroDef))
      (options : Option (List (String × OptVal))) (handler : Fn),
      buildFromOptions macros options handler =
        buildFromOptionsSpec macros options handler) ∧
    (∀ (macros : List (String × MacroDef)) (handler : Fn),
      buildFromOptions macros none handler = handler) ∧
    (∀ (d : Ctx → Option Ctx) (rest : List Fn) (ctx : Ctx),
      execFns (.macroDerive d :: rest) ctx =
        match d ctx with
        | none => ⟨ctx, [], 0⟩
        | some patch => execFns rest (jsAssign ctx patch)) := by
  refine ⟨?_, fun _ _ => rfl, ?_⟩
  · intro macros options handler
    cases options with
    | none => rfl
    | some opts =>
      simp only [buildFromOptions, buildFromOptionsSpec]
      have key : ∀ (opts' : List (String × OptVal)) (acc : List Fn),
          List.foldl (fun chain kv =>
            if kv.1 = "preHandler" then chain
            else if optSkipped kv.2 then chain
            else
              match recordGet macros kv.1 with
              | none => chain
              | some d =>
                let hooks := resolveHooks d kv.2
                let chain' := chain ++ (match hooks.preHandler with
                  | some ph => spreadMaybeArr ph
                  | none => [])
                match hooks.derive with
                | some dv => chain' ++ [.macroDerive dv]
                | none => chain') acc opts' =
            acc ++ opts'.flatMap (macroContribution macros) := by
        intro opts'
        induction opts' with
        | nil => intro acc; simp
        | cons kv rest ih =>
          intro acc
          rw [List.foldl_cons, ih, List.flatMap_cons, ← List.append_assoc]
          congr 1
          simp only [macroContribution]
          by_cases h1 : kv.1 = "preHandler"
          · simp [h1]
          · by_cases h2 : optSkipped kv.2
            · simp [h1, h2]
            · cases hd : recordGet macros kv.1 with
              | none => simp [h1, h2, hd]
              | some d =>
                cases hph : (resolveHooks d kv.2).preHandler <;>
                  cases hdv : (resolveHooks d kv.2).derive <;>
                  simp [h1, h2, hd, hph, hdv, List.append_assoc]
      rw [key opts (explicitPre opts)]
  · intro d rest ctx
    cases hd : d ctx <;> simp [execFns, hd]

theorem applyOp_inactive {T : Type} (q : EventQueue T) (op : EventQueue.QOp T)
    (h : q.active = false) :
    (EventQueue.applyOp q op).1.active = false ∧ (EventQueue.applyOp q op).2 = [] := by
  cases op with
  | add e => simp [EventQueue.applyOp, EventQueue.add, EventQueue.process, h]
  | addBatch es => simp [EventQueue.applyOp, EventQueue.addBatch, EventQueue.process, h]
  | settle =>
    refine ⟨?_, rfl⟩
    simp only [EventQueue.applyOp, EventQueue.settleOne, EventQueue.checkIdle]
    split
    · exact h
    · split <;> simp [h]
  | onIdleOp =>
    refine ⟨?_, rfl⟩
    simp only [EventQueue.applyOp, EventQueue.onIdle]
    split <;> simp [h]
  | stopOp => exact ⟨rfl, rfl⟩

theorem runOps_inactive {T : Type} (q : EventQueue T) (ops : List (EventQueue.QOp T))
    (h : q.active = false) :
    (EventQueue.runOps q ops).1.active = false ∧ (EventQueue.runOps q ops).2 = [] := by
  induction ops generalizing q with
  | nil => exact ⟨h, rfl⟩
  | cons op rest ih =>
    obtain ⟨h1, h2⟩ := applyOp_inactive q op h
    obtain ⟨h3, h4⟩ := ih (EventQueue.applyOp q op).1 h1
    exact ⟨by simpa [EventQueue.runOps] using h3,
      by simp [EventQueue.runOps, h2, h4]⟩

/-- C9: EventQueue.stop.  Setting the flag makes the queue inactive; the
promise stop() returns settles at the earlier of the idle time and the
timeout, so it always resolves no later than the timeout and never rejects
(both race branches only resolve); and stopped is terminal: after the flag
is cleared, no sequence of subsequent operations — adds, task settlements,
onIdle calls or further stops — ever starts a backlog event or reactivates
the queue. -/
theorem claim_C9_stop_terminal (T : Type) (q : EventQueue T)
    (ops : List (EventQueue.QOp T)) (idleAt : Option Nat) (timeout : Nat) :
    (EventQueue.stopFlag q).active = false ∧
    EventQueue.stopSettleTime idleAt timeout ≤ timeout ∧
    (EventQueue.runOps (EventQueue.stopFlag q) ops).1.active = false ∧
    (EventQueue.runOps (EventQueue.stopFlag q) ops).2 = [] := by
  refine ⟨rfl, ?_, ?_, ?_⟩
  · cases idleAt <;> simp [EventQueue.stopSettleTime]
  · exact (runOps_inactive _ ops rfl).1
  · exact (runOps_inactive _ ops rfl).2

theorem applyOp_stopped_backlog {T : Type} (q : EventQueue T) (op : EventQueue.QOp T)
    (hA : q.active = false) (hQ : q.queue ≠ []) :
    (EventQueue.applyOp q op).1.active = false ∧
    (EventQueue.applyOp q op).1.queue ≠ [] ∧
    (EventQueue.applyOp q op).1.notifiedWaiters = q.notifiedWaiters := by
  obtain ⟨x, xs, hx⟩ := List.exists_cons_of_ne_nil hQ
  cases op with
  | add e => simp [EventQueue.applyOp, EventQueue.add, EventQueue.process, hA, hx]
  | addBatch es => simp [EventQueue.applyOp, EventQueue.addBatch, EventQueue.process, hA, hx]
  | settle =>
    simp [EventQueue.applyOp, EventQueue.settleOne, EventQueue.checkIdle, hA, hx]
    split <;> simp [hx, hA]
  | onIdleOp => simp [EventQueue.applyOp, EventQueue.onIdle, hA, hx]
  | stopOp => simp [EventQueue.applyOp, EventQueue.stopFlag, hA, hx]

theorem runOps_stopped_backlog {T : Type} (q : EventQueue T)
    (ops : List (EventQueue.QOp T)) (hA : q.active = false) (hQ : q.queue ≠ []) :
    (EventQueue.runOps q ops).1.active = false ∧
    (EventQueue.runOps q ops).1.queue ≠ [] ∧
    (EventQueue.runOps q ops).1.notifiedWaiters = q.notifiedWaiters := by
  induction ops generalizing q with
  | nil => exact ⟨hA, hQ, rfl⟩
  | cons op rest ih =>
    obtain ⟨h1, h2, h3⟩ := applyOp_stopped_backlog q op hA hQ
    obtain ⟨h4, h5, h6⟩ := ih (EventQueue.applyOp q op).1 h1 h2
    refine ⟨by simpa [EventQueue.runOps] using h4,
      by simpa [EventQueue.runOps] using h5, ?_⟩
    simp only [EventQueue.runOps]
    rw [h6, h3]

/-- C10: a queue stopped while its backlog is non-empty can never become
idle again: along every sequence of subsequent operations the backlog stays
non-empty (nothing removes backlog events while inactive) and the queue
stays inactive, so the idle condition — empty backlog and empty in-flight
set — never holds, no queued idle resolver is ever notified (the notified
counter stays fixed, so every promise obtained from onIdle() in that state
never resolves; indeed onIdle() does not resolve immediately either), and
with the idle promise never settling, the race inside stop() waits out its
full timeout. -/
theorem claim_C10_stopped_backlog_never_idle (T : Type) (q : EventQueue T)
    (ops : List (EventQueue.QOp T)) (timeout : Nat)
    (hA : q.active = false) (hQ : q.queue ≠ []) :
    (EventQueue.runOps q ops).1.active = false ∧
    (EventQueue.runOps q ops).1.queue ≠ [] ∧
    ¬((EventQueue.runOps q ops).1.queue = [] ∧
      (EventQueue.runOps q ops).1.pendingUpdates = 0) ∧
    (EventQueue.runOps q ops).1.notifiedWaiters = q.notifiedWaiters ∧
    (EventQueue.onIdle q).2 = false ∧
    EventQueue.stopSettleTime none timeout = timeout := by
  obtain ⟨h1, h2, h3⟩ := runOps_stopped_backlog q ops hA hQ
  obtain ⟨x, xs, hx⟩ := List.exists_cons_of_ne_nil hQ
  exact ⟨h1, h2, fun hid => h2 hid.1, h3,
    by simp [EventQueue.onIdle, hx], rfl⟩

/-- C10 witness: a concrete stopped queue with one backlog event, hit by a
task settlement, an onIdle call and a later add. -/
theorem claim_C10_witness :
    (EventQueue.runOps (⟨[7], 1, false, 0, 0⟩ : EventQueue Nat)
      [.settle, .onIdleOp, .add 3]).1.active = false ∧
    (EventQueue.runOps (⟨[7], 1, false, 0, 0⟩ : EventQueue Nat)
      [.settle, .onIdleOp, .add 3]).1.queue ≠ [] ∧
    ¬((EventQueue.runOps (⟨[7], 1, false, 0, 0⟩ : EventQueue Nat)
        [.settle, .onIdleOp, .add 3]).1.queue = [] ∧
      (EventQueue.runOps (⟨[7], 1, false, 0, 0⟩ : EventQueue Nat)
        [.settle, .onIdleOp, .add 3]).1.pendingUpdates = 0) ∧
    (EventQueue.runOps (⟨[7], 1, false, 0, 0⟩ : EventQueue Nat)
      [.settle, .onIdleOp, .add 3]).1.notifiedWaiters =
      (⟨[7], 1, false, 0, 0⟩ : EventQueue Nat).notifiedWaiters ∧
    (EventQueue.onIdle (⟨[7], 1, false, 0, 0⟩ : EventQueue Nat)).2 = false ∧
    EventQueue.stopSettleTime none 3000 = 3000 :=
  claim_C10_stopped_backlog_never_idle Nat ⟨[7], 1, false, 0, 0⟩
    [.settle, .onIdleOp, .add 3] 3000 rfl (by simp)

end GramioComposer
